import Mathlib

/-!
Verification of the pallet-packing core of `pallet_packer_app.py`.

The Python core is embedded shallowly:
* dimensions and heights are rationals (the Python code computes with exact
  small decimals; exact arithmetic is modelled by `ℚ`);
* carton counts are integers (`ℤ`), matching the whole-valued Python counts;
* `float` conversion failure (ValueError / TypeError) is modelled by `none`
  in an `Option ℚ` argument;
* the unbounded Python `while` loop is modelled with an explicit fuel
  parameter; `pack_fba_group` supplies fuel `totalQty + 1`, and a theorem
  below shows any larger fuel gives the same result.

The pandas sort `sort_values(by='Volume', ascending=False)` is modelled by a
deterministic insertion sort by descending volume.  The pandas default kind
is quicksort, whose order among equal keys is implementation-defined, so no
theorem below depends on the relative order of rows with equal volume: every
hypothesis used is invariant under permutation of the row list.
-/

namespace PalletPacker

/-- Pallet length constant (`PALLET_LENGTH = 122`). -/
def palletLength : ℚ := 122

/-- Pallet width constant (`PALLET_WIDTH = 102`). -/
def palletWidth : ℚ := 102

/-- Pallet height constant (`PALLET_HEIGHT = 194`). -/
def palletHeight : ℚ := 194

/-- One step of the orientation loop in `calculate_cartons_per_layer`:
given the accumulator `(max_count, best_orientation)` and a candidate
orientation `o`, keep the candidate exactly when its per-layer count is
strictly greater (`if total > max_count`). -/
def orientStep (acc : ℤ × (ℚ × ℚ)) (o : ℚ × ℚ) : ℤ × (ℚ × ℚ) :=
  if acc.1 < ⌊palletLength / o.1⌋ * ⌊palletWidth / o.2⌋ then
    (⌊palletLength / o.1⌋ * ⌊palletWidth / o.2⌋, o)
  else acc

/-- Embedding of `calculate_cartons_per_layer(carton_L, carton_W)`.
`none` models an input on which `float()` raises (non-numeric input); the
Python `except` branch returns `0, (0, 0)`, as does the non-positive check.
Otherwise both orientations `(L, W)` and `(W, L)` are tried in order,
starting from `max_count = 0`, `best_orientation = (0, 0)`. -/
def calculate_cartons_per_layer : Option ℚ → Option ℚ → ℤ × (ℚ × ℚ)
  | some l0, some w0 =>
    if l0 ≤ 0 ∨ w0 ≤ 0 then (0, (0, 0))
    else orientStep (orientStep (0, (0, 0)) (l0, w0)) (w0, l0)
  | _, _ => (0, (0, 0))

/-- One input row of a shipment group: FBA code, remaining carton quantity
(`# of Cartons`), and the three carton dimensions. -/
structure Row where
  fba : String
  qty : ℤ
  rlen : ℚ
  rwid : ℚ
  rht : ℚ
deriving DecidableEq, Repr

/-- One entry of a pallet's `Details` list: the carton dimensions (the
Python code stores the label `f"{L}x{W}x{H}"`; the embedding keeps the
three dimensions) and the packed count. -/
structure Detail where
  dimL : ℚ
  dimW : ℚ
  dimH : ℚ
  packed : ℤ
deriving DecidableEq, Repr

/-- The mutable state of one pallet-construction pass: `height_used`,
`max_length_used`, `max_width_used`, the running `Packed Cartons` total and
the `Details` list. -/
structure PassState where
  heightUsed : ℚ
  maxLengthUsed : ℚ
  maxWidthUsed : ℚ
  packed : ℤ
  details : List Detail
deriving DecidableEq, Repr

/-- Pass state at the start of each pallet (`height_used = 0` etc.). -/
def initPass : PassState := ⟨0, 0, 0, 0, []⟩

/-- The orientation-selector result for a row, as called by the packing
loop: `calculate_cartons_per_layer(row['Length'], row['Width'])`. -/
def rowCPL (r : Row) : ℤ × (ℚ × ℚ) :=
  calculate_cartons_per_layer (some r.rlen) (some r.rwid)

/-- `max_layers = (PALLET_HEIGHT - height_used) // row['Height']`. -/
def rowMaxLayers (hu : ℚ) (r : Row) : ℤ := ⌊(palletHeight - hu) / r.rht⌋

/-- `max_cartons = cartons_per_layer * max_layers`. -/
def rowMaxCartons (hu : ℚ) (r : Row) : ℤ := (rowCPL r).1 * rowMaxLayers hu r

/-- `cartons_to_pack = min(row['# of Cartons'], max_cartons)`. -/
def rowCartonsToPack (hu : ℚ) (r : Row) : ℤ := min r.qty (rowMaxCartons hu r)

/-- `layers_used = math.ceil(cartons_to_pack / cartons_per_layer)`. -/
def rowLayersUsed (ctp cpl : ℤ) : ℤ := ⌈(ctp : ℚ) / (cpl : ℚ)⌉

/-- `height_add = layers_used * row['Height']`. -/
def rowHeightAdd (hu : ℚ) (r : Row) : ℚ :=
  (rowLayersUsed (rowCartonsToPack hu r) (rowCPL r).1 : ℚ) * r.rht

/-- The four `continue` conditions of the inner row loop, in source order:
zero remaining quantity, zero per-layer count, zero cartons to pack, and the
conservative height guard `height_used + height_add > PALLET_HEIGHT`. -/
def skipCond (st : PassState) (r : Row) : Prop :=
  r.qty ≤ 0 ∨ (rowCPL r).1 = 0 ∨ rowCartonsToPack st.heightUsed r = 0 ∨
    palletHeight < st.heightUsed + rowHeightAdd st.heightUsed r

instance (st : PassState) (r : Row) : Decidable (skipCond st r) := by
  unfold skipCond; infer_instance

/-- The commit branch of the inner loop: decrement the quantity, add the
height, add the packed count, update the running footprint maxima and append
the detail entry.  `count_L = PALLET_LENGTH // used_L`,
`rows_used = ceil(min(cartons_to_pack, cartons_per_layer) / count_L)`,
`length_occupied = min(PALLET_LENGTH, count_L * used_L)`,
`width_occupied = min(PALLET_WIDTH, rows_used * used_W)`. -/
def commitState (st : PassState) (r : Row) : PassState :=
  { heightUsed := st.heightUsed + rowHeightAdd st.heightUsed r
    maxLengthUsed := max st.maxLengthUsed
      (min palletLength ((⌊palletLength / (rowCPL r).2.1⌋ : ℚ) * (rowCPL r).2.1))
    maxWidthUsed := max st.maxWidthUsed
      (min palletWidth
        ((⌈(min (rowCartonsToPack st.heightUsed r) (rowCPL r).1 : ℚ) /
            ((⌊palletLength / (rowCPL r).2.1⌋ : ℤ) : ℚ)⌉ : ℚ) * (rowCPL r).2.2))
    packed := st.packed + rowCartonsToPack st.heightUsed r
    details := st.details ++ [⟨r.rlen, r.rwid, r.rht, rowCartonsToPack st.heightUsed r⟩] }

/-- The committed row: `remaining_cartons.at[idx, '# of Cartons'] -= cartons_to_pack`. -/
def commitRow (st : PassState) (r : Row) : Row :=
  { r with qty := r.qty - rowCartonsToPack st.heightUsed r }

/-- One iteration of the inner row loop: skip (the `continue` cases) or commit. -/
def processRow (st : PassState) (r : Row) : PassState × Row :=
  if skipCond st r then (st, r) else (commitState st r, commitRow st r)

/-- One whole pallet-construction pass over the rows in order, threading
the pass state and returning the updated rows. -/
def packPass : PassState → List Row → PassState × List Row
  | st, [] => (st, [])
  | st, r :: rs =>
    ((packPass (processRow st r).1 rs).1,
      (processRow st r).2 :: (packPass (processRow st r).1 rs).2)

/-- `remaining_cartons['# of Cartons'].sum()`. -/
def totalQty (rows : List Row) : ℤ := (rows.map Row.qty).sum

/-- One finished pallet summary record. -/
structure PalletSummary where
  fbaCode : String
  palletNum : ℤ
  packedCartons : ℤ
  details : List Detail
  totalHeightUsed : ℚ
  totalLengthUsed : ℚ
  totalWidthUsed : ℚ
deriving DecidableEq, Repr

/-- Finalize a pallet summary from a finished pass (`Total Height Used`
etc. are written only when the pallet is kept).  The FBA code is read from
the first row (`remaining_cartons['FBA Code'].iloc[0]`). -/
def mkSummary (rows : List Row) (palletId : ℤ) (st : PassState) : PalletSummary :=
  ⟨((rows.head?).map Row.fba).getD "", palletId, st.packed, st.details,
    st.heightUsed, st.maxLengthUsed, st.maxWidthUsed⟩

/-- The outer `while remaining_cartons['# of Cartons'].sum() > 0` loop,
with explicit fuel.  A pallet is kept and the loop continues exactly when
the pass packed at least one carton; otherwise the empty pallet is
discarded and the loop breaks. -/
def packLoop : ℕ → ℤ → List Row → List PalletSummary
  | 0, _, _ => []
  | fuel + 1, palletId, rows =>
    if 0 < totalQty rows then
      if 0 < (packPass initPass rows).1.packed then
        mkSummary rows palletId (packPass initPass rows).1 ::
          packLoop fuel (palletId + 1) (packPass initPass rows).2
      else []
    else []

/-- `Volume = Length * Width * Height`. -/
def vol (r : Row) : ℚ := r.rlen * r.rwid * r.rht

/-- Insertion step of the descending-volume sort. -/
def insertVolDesc (r : Row) : List Row → List Row
  | [] => [r]
  | s :: rest => if vol r ≤ vol s then s :: insertVolDesc r rest else r :: s :: rest

/-- Model of `sort_values(by='Volume', ascending=False)`: a deterministic
sort by descending volume.  The pandas default quicksort leaves the order
of equal-volume rows implementation-defined; no theorem in this file
depends on that order. -/
def sortVolDesc : List Row → List Row
  | [] => []
  | r :: rs => insertVolDesc r (sortVolDesc rs)

/-- Fuel sufficient for the outer loop: total initial quantity plus one. -/
def packFuel (rows : List Row) : ℕ := (totalQty rows).toNat + 1

/-- Embedding of `pack_fba_group`: sort by descending volume, then run the
outer pallet loop starting at pallet number 1. -/
def pack_fba_group (rows : List Row) : List PalletSummary :=
  packLoop (packFuel rows) 1 (sortVolDesc rows)

/-- Ascending insertion step for FBA keys. -/
def insertKey (k : String) : List String → List String
  | [] => [k]
  | s :: rest => if s ≤ k then s :: insertKey k rest else k :: s :: rest

/-- Sorted group keys, modelling the sorted iteration order of
`df.groupby("FBA Code")`. -/
def fbaKeys (rows : List Row) : List String :=
  ((rows.map Row.fba).dedup).foldr insertKey []

/-- Embedding of `pack_all`: pack each FBA group independently (each group
keeps the original row order of the input table) and concatenate the
results in sorted key order, as pandas groupby does. -/
def pack_all (rows : List Row) : List PalletSummary :=
  (fbaKeys rows).flatMap fun k => pack_fba_group (rows.filter fun r => r.fba = k)

/-- Sum of `Packed Cartons` over a list of pallet summaries. -/
def sumPacked (ps : List PalletSummary) : ℤ :=
  (ps.map PalletSummary.packedCartons).sum

/-- Strictly positive carton dimensions. -/
def PosRow (r : Row) : Prop := 0 < r.rlen ∧ 0 < r.rwid ∧ 0 < r.rht

instance (r : Row) : Decidable (PosRow r) := by unfold PosRow; infer_instance

/-- A carton type that is individually placeable: positive per-layer count
and height within the pallet height. -/
def placeable (r : Row) : Prop := 0 < (rowCPL r).1 ∧ r.rht ≤ palletHeight

instance (r : Row) : Decidable (placeable r) := by unfold placeable; infer_instance

/-- Total quantity carried by individually placeable rows. -/
def placeQty (rows : List Row) : ℤ :=
  ((rows.filter fun r => decide (placeable r)).map Row.qty).sum

/-! ### Lemmas about the orientation selector -/

lemma orientStep_fst_le (acc : ℤ × (ℚ × ℚ)) (o : ℚ × ℚ) : acc.1 ≤ (orientStep acc o).1 := by
  unfold orientStep
  split
  · exact le_of_lt (by assumption)
  · exact le_rfl

lemma calculate_fst_nonneg (a b : Option ℚ) : 0 ≤ (calculate_cartons_per_layer a b).1 := by
  match a, b with
  | none, b => simp [calculate_cartons_per_layer]
  | some l0, none => simp [calculate_cartons_per_layer]
  | some l0, some w0 =>
    simp only [calculate_cartons_per_layer]
    split
    · simp
    · exact le_trans (orientStep_fst_le (0, (0, 0)) (l0, w0)) (orientStep_fst_le _ _)

lemma floor_div_nonneg {c x : ℚ} (hc : 0 ≤ c) (hx : 0 < x) : 0 ≤ ⌊c / x⌋ :=
  Int.floor_nonneg.mpr (div_nonneg hc hx.le)

/-- Closed form of the selector on valid input: the second orientation wins
exactly when its count is strictly greater; a positive first count wins
ties; an all-zero tie keeps the sentinel `(0, 0)`. -/
lemma calculate_pos_eq (l0 w0 : ℚ) (hl : 0 < l0) (hw : 0 < w0) :
    calculate_cartons_per_layer (some l0) (some w0) =
      if ⌊palletLength / l0⌋ * ⌊palletWidth / w0⌋ < ⌊palletLength / w0⌋ * ⌊palletWidth / l0⌋ then
        (⌊palletLength / w0⌋ * ⌊palletWidth / l0⌋, (w0, l0))
      else if 0 < ⌊palletLength / l0⌋ * ⌊palletWidth / w0⌋ then
        (⌊palletLength / l0⌋ * ⌊palletWidth / w0⌋, (l0, w0))
      else (0, (0, 0)) := by
  have hL : (0:ℚ) ≤ palletLength := by norm_num [palletLength]
  have hW : (0:ℚ) ≤ palletWidth := by norm_num [palletWidth]
  have ht1 : 0 ≤ ⌊palletLength / l0⌋ * ⌊palletWidth / w0⌋ :=
    mul_nonneg (floor_div_nonneg hL hl) (floor_div_nonneg hW hw)
  simp only [calculate_cartons_per_layer]
  rw [if_neg (by push_neg; exact ⟨hl, hw⟩)]
  by_cases h1 : (0:ℤ) < ⌊palletLength / l0⌋ * ⌊palletWidth / w0⌋
  · by_cases h2 : ⌊palletLength / l0⌋ * ⌊palletWidth / w0⌋ < ⌊palletLength / w0⌋ * ⌊palletWidth / l0⌋
    · simp [orientStep, h1, h2]
    · simp [orientStep, h1, h2]
  · have ht1' : ⌊palletLength / l0⌋ * ⌊palletWidth / w0⌋ = 0 := le_antisymm (by omega) ht1
    by_cases h2 : (0:ℤ) < ⌊palletLength / w0⌋ * ⌊palletWidth / l0⌋
    · simp [orientStep, h1, h2, ht1']
    · simp [orientStep, h1, h2, ht1']

/-! ### The conservative height guard never over-allocates -/

lemma rowCPL_fst_nonneg (r : Row) : 0 ≤ (rowCPL r).1 := calculate_fst_nonneg _ _

/-- The computed layer count never exceeds the layer budget
`max_layers`, because `cartons_to_pack ≤ cartons_per_layer * max_layers`. -/
lemma rowLayersUsed_le (hu : ℚ) (r : Row) (hc : 0 < (rowCPL r).1) :
    rowLayersUsed (rowCartonsToPack hu r) (rowCPL r).1 ≤ rowMaxLayers hu r := by
  have hcq : (0:ℚ) < ((rowCPL r).1 : ℚ) := by exact_mod_cast hc
  have h1 : rowCartonsToPack hu r ≤ (rowCPL r).1 * rowMaxLayers hu r := by
    unfold rowCartonsToPack rowMaxCartons
    exact min_le_right _ _
  unfold rowLayersUsed
  rw [Int.ceil_le, div_le_iff₀ hcq, mul_comm]
  exact_mod_cast h1

lemma rowHeightAdd_le (hu : ℚ) (r : Row) (hh : 0 < r.rht) (hc : 0 < (rowCPL r).1) :
    hu + rowHeightAdd hu r ≤ palletHeight := by
  have h2 : rowLayersUsed (rowCartonsToPack hu r) (rowCPL r).1 ≤ rowMaxLayers hu r :=
    rowLayersUsed_le hu r hc
  have h3 : (rowMaxLayers hu r : ℚ) ≤ (palletHeight - hu) / r.rht := by
    unfold rowMaxLayers
    exact Int.floor_le _
  have h4 : (rowMaxLayers hu r : ℚ) * r.rht ≤ palletHeight - hu := by
    calc (rowMaxLayers hu r : ℚ) * r.rht ≤ ((palletHeight - hu) / r.rht) * r.rht :=
          mul_le_mul_of_nonneg_right h3 hh.le
      _ = palletHeight - hu := div_mul_cancel₀ _ (ne_of_gt hh)
  have h5 : rowHeightAdd hu r ≤ (rowMaxLayers hu r : ℚ) * r.rht := by
    unfold rowHeightAdd
    exact mul_le_mul_of_nonneg_right (by exact_mod_cast h2) hh.le
  linarith

/-! ### Per-row lemmas about the inner loop body -/

/-- Invariant of the pass state: the used height stays within `[0, 194]`. -/
def Inv (st : PassState) : Prop := 0 ≤ st.heightUsed ∧ st.heightUsed ≤ palletHeight

lemma rowMaxLayers_nonneg (hu : ℚ) (r : Row) (h1 : hu ≤ palletHeight) (hh : 0 < r.rht) :
    0 ≤ rowMaxLayers hu r :=
  Int.floor_nonneg.mpr (div_nonneg (by linarith) hh.le)

lemma ctp_zero_of_tall (hu : ℚ) (r : Row) (h0 : 0 ≤ hu) (h1 : hu ≤ palletHeight)
    (hh : 0 < r.rht) (ht : palletHeight < r.rht) (hq : 0 ≤ r.qty) :
    rowCartonsToPack hu r = 0 := by
  have hml : rowMaxLayers hu r = 0 := by
    unfold rowMaxLayers
    rw [Int.floor_eq_zero_iff]
    refine Set.mem_Ico.mpr ⟨div_nonneg (by linarith) hh.le, ?_⟩
    rw [div_lt_one hh]
    linarith
  unfold rowCartonsToPack rowMaxCartons
  rw [hml, mul_zero]
  exact min_eq_right hq

lemma ctp_pos_of_commit (st : PassState) (r : Row) (hInv : Inv st) (hh : 0 < r.rht)
    (hns : ¬ skipCond st r) : 0 < rowCartonsToPack st.heightUsed r := by
  simp only [skipCond, not_or] at hns
  obtain ⟨hq, hcpl, hctp, _⟩ := hns
  have hml : 0 ≤ rowMaxLayers st.heightUsed r := rowMaxLayers_nonneg _ _ hInv.2 hh
  have hcn : 0 ≤ (rowCPL r).1 := rowCPL_fst_nonneg r
  have hmc : 0 ≤ rowMaxCartons st.heightUsed r := mul_nonneg hcn hml
  have h0 : 0 ≤ rowCartonsToPack st.heightUsed r := le_min (by omega) hmc
  omega

lemma commit_placeable (st : PassState) (r : Row) (hInv : Inv st) (hp : PosRow r)
    (hns : ¬ skipCond st r) : placeable r := by
  have hns' := hns
  simp only [skipCond, not_or] at hns'
  obtain ⟨hq, hcpl, hctp, _⟩ := hns'
  have hcn : 0 ≤ (rowCPL r).1 := rowCPL_fst_nonneg r
  refine ⟨by omega, ?_⟩
  by_contra ht
  push_neg at ht
  exact hctp (ctp_zero_of_tall _ _ hInv.1 hInv.2 hp.2.2 ht (by omega))

lemma processRow_skip (st : PassState) (r : Row) (h : skipCond st r) :
    processRow st r = (st, r) := by
  simp [processRow, h]

lemma processRow_commit (st : PassState) (r : Row) (h : ¬ skipCond st r) :
    processRow st r = (commitState st r, commitRow st r) := by
  simp [processRow, h]

lemma processRow_heightUsed_le (st : PassState) (r : Row) (h : st.heightUsed ≤ palletHeight) :
    (processRow st r).1.heightUsed ≤ palletHeight := by
  by_cases hs : skipCond st r
  · simpa [processRow, hs]
  · have hns := hs
    simp only [skipCond, not_or] at hns
    rw [processRow_commit st r hs]
    exact le_of_not_lt hns.2.2.2

lemma processRow_maxLen_le (st : PassState) (r : Row) (h : st.maxLengthUsed ≤ palletLength) :
    (processRow st r).1.maxLengthUsed ≤ palletLength := by
  by_cases hs : skipCond st r
  · simpa [processRow, hs]
  · rw [processRow_commit st r hs]
    exact max_le h (min_le_left _ _)

lemma processRow_maxWid_le (st : PassState) (r : Row) (h : st.maxWidthUsed ≤ palletWidth) :
    (processRow st r).1.maxWidthUsed ≤ palletWidth := by
  by_cases hs : skipCond st r
  · simpa [processRow, hs]
  · rw [processRow_commit st r hs]
    exact max_le h (min_le_left _ _)

lemma processRow_balance (st : PassState) (r : Row) :
    (processRow st r).2.qty + (processRow st r).1.packed = r.qty + st.packed := by
  by_cases hs : skipCond st r
  · simp [processRow, hs]
  · rw [processRow_commit st r hs]
    simp only [commitState, commitRow]
    ring

lemma processRow_shape (st : PassState) (r : Row) :
    (processRow st r).2.fba = r.fba ∧ (processRow st r).2.rlen = r.rlen ∧
      (processRow st r).2.rwid = r.rwid ∧ (processRow st r).2.rht = r.rht := by
  by_cases hs : skipCond st r
  · simp [processRow, hs]
  · rw [processRow_commit st r hs]
    simp [commitRow]

lemma processRow_qty_nonneg (st : PassState) (r : Row) (h : 0 ≤ r.qty) :
    0 ≤ (processRow st r).2.qty := by
  by_cases hs : skipCond st r
  · simpa [processRow, hs]
  · rw [processRow_commit st r hs]
    simp only [commitRow]
    have := min_le_left r.qty (rowMaxCartons st.heightUsed r)
    simp only [rowCartonsToPack]
    omega

lemma processRow_mono_inv (st : PassState) (r : Row) (hInv : Inv st) (hp : PosRow r) :
    st.packed ≤ (processRow st r).1.packed ∧ Inv (processRow st r).1 := by
  by_cases hs : skipCond st r
  · rw [processRow_skip st r hs]
    exact ⟨le_rfl, hInv⟩
  · have hns := hs
    simp only [skipCond, not_or] at hns
    obtain ⟨hq, hcpl, hctp, hguard⟩ := hns
    have hctpp : 0 < rowCartonsToPack st.heightUsed r := ctp_pos_of_commit st r hInv hp.2.2 hs
    have hcn : 0 ≤ (rowCPL r).1 := rowCPL_fst_nonneg r
    have hcpos : 0 < (rowCPL r).1 := by omega
    have hadd : 0 < rowHeightAdd st.heightUsed r := by
      unfold rowHeightAdd
      have hlay : 0 < rowLayersUsed (rowCartonsToPack st.heightUsed r) (rowCPL r).1 := by
        unfold rowLayersUsed
        rw [Int.ceil_pos]
        exact div_pos (by exact_mod_cast hctpp) (by exact_mod_cast hcpos)
      exact mul_pos (by exact_mod_cast hlay) hp.2.2
    rw [processRow_commit st r hs]
    refine ⟨by simp only [commitState]; omega, ?_, ?_⟩
    · simp only [commitState]
      have := hInv.1
      linarith
    · simp only [commitState]
      exact le_of_not_lt hguard

lemma processRow_dichotomy (st : PassState) (r : Row) (hInv : Inv st) (hp : PosRow r) :
    processRow st r = (st, r) ∨ st.packed < (processRow st r).1.packed := by
  by_cases hs : skipCond st r
  · exact Or.inl (processRow_skip st r hs)
  · right
    have hctpp : 0 < rowCartonsToPack st.heightUsed r := ctp_pos_of_commit st r hInv hp.2.2 hs
    rw [processRow_commit st r hs]
    simp only [commitState]
    omega

lemma processRow_commit_of_placeable (st : PassState) (r : Row) (h0 : st.heightUsed = 0)
    (hp : PosRow r) (hpl : placeable r) (hq : 0 < r.qty) :
    st.packed < (processRow st r).1.packed := by
  have hns : ¬ skipCond st r := by
    simp only [skipCond, not_or]
    have hml : 1 ≤ rowMaxLayers st.heightUsed r := by
      unfold rowMaxLayers
      rw [Int.le_floor]
      rw [h0, sub_zero]
      push_cast
      rw [one_le_div hp.2.2]
      exact hpl.2
    have hmc : 0 < rowMaxCartons st.heightUsed r := by
      unfold rowMaxCartons
      have := hpl.1
      nlinarith
    have hcpos := hpl.1
    refine ⟨by omega, by omega, ?_, ?_⟩
    · have : 0 < rowCartonsToPack st.heightUsed r := by
        unfold rowCartonsToPack
        exact lt_min hq hmc
      omega
    · exact not_lt.mpr (rowHeightAdd_le st.heightUsed r hp.2.2 hpl.1)
  have hctpp : 0 < rowCartonsToPack st.heightUsed r := by
    unfold rowCartonsToPack
    refine lt_min hq ?_
    unfold rowMaxCartons
    have h1 := hpl.1
    have h2 : 1 ≤ rowMaxLayers st.heightUsed r := by
      unfold rowMaxLayers
      rw [Int.le_floor, h0, sub_zero]
      push_cast
      rw [one_le_div hp.2.2]
      exact hpl.2
    nlinarith
  rw [processRow_commit st r hns]
  simp only [commitState]
  omega

/-! ### Pass-level lemmas (one pallet-construction pass) -/

lemma packPass_heightUsed_le : ∀ (rows : List Row) (st : PassState),
    st.heightUsed ≤ palletHeight → (packPass st rows).1.heightUsed ≤ palletHeight
  | [], st, h => by simpa [packPass]
  | r :: rs, st, h => by
    simp only [packPass]
    exact packPass_heightUsed_le rs _ (processRow_heightUsed_le st r h)

lemma packPass_maxLen_le : ∀ (rows : List Row) (st : PassState),
    st.maxLengthUsed ≤ palletLength → (packPass st rows).1.maxLengthUsed ≤ palletLength
  | [], st, h => by simpa [packPass]
  | r :: rs, st, h => by
    simp only [packPass]
    exact packPass_maxLen_le rs _ (processRow_maxLen_le st r h)

lemma packPass_maxWid_le : ∀ (rows : List Row) (st : PassState),
    st.maxWidthUsed ≤ palletWidth → (packPass st rows).1.maxWidthUsed ≤ palletWidth
  | [], st, h => by simpa [packPass]
  | r :: rs, st, h => by
    simp only [packPass]
    exact packPass_maxWid_le rs _ (processRow_maxWid_le st r h)

lemma packPass_balance : ∀ (rows : List Row) (st : PassState),
    totalQty (packPass st rows).2 + (packPass st rows).1.packed = totalQty rows + st.packed
  | [], st => by simp [packPass, totalQty]
  | r :: rs, st => by
    have h1 := processRow_balance st r
    have h2 := packPass_balance rs (processRow st r).1
    simp only [packPass, totalQty, List.map_cons, List.sum_cons] at *
    omega

lemma packPass_qty_nonneg : ∀ (rows : List Row) (st : PassState),
    (∀ x ∈ rows, 0 ≤ x.qty) → ∀ x ∈ (packPass st rows).2, 0 ≤ x.qty
  | [], st, h => by simp [packPass]
  | r :: rs, st, h => by
    intro x hx
    simp only [packPass, List.mem_cons] at hx
    rcases hx with rfl | hx
    · exact processRow_qty_nonneg st r (h r (by simp))
    · exact packPass_qty_nonneg rs _ (fun y hy => h y (by simp [hy])) x hx

lemma packPass_pos : ∀ (rows : List Row) (st : PassState),
    (∀ x ∈ rows, PosRow x) → ∀ x ∈ (packPass st rows).2, PosRow x
  | [], st, h => by simp [packPass]
  | r :: rs, st, h => by
    intro x hx
    simp only [packPass, List.mem_cons] at hx
    rcases hx with rfl | hx
    · obtain ⟨-, h1, h2, h3⟩ := processRow_shape st r
      obtain ⟨p1, p2, p3⟩ := h r (by simp)
      exact ⟨h1 ▸ p1, h2 ▸ p2, h3 ▸ p3⟩
    · exact packPass_pos rs _ (fun y hy => h y (by simp [hy])) x hx

lemma packPass_mono_inv : ∀ (rows : List Row) (st : PassState),
    Inv st → (∀ x ∈ rows, PosRow x) →
    st.packed ≤ (packPass st rows).1.packed ∧ Inv (packPass st rows).1
  | [], st, hInv, h => by simp only [packPass]; exact ⟨le_rfl, hInv⟩
  | r :: rs, st, hInv, h => by
    obtain ⟨hm, hI⟩ := processRow_mono_inv st r hInv (h r (by simp))
    obtain ⟨hm', hI'⟩ := packPass_mono_inv rs (processRow st r).1 hI
      (fun y hy => h y (by simp [hy]))
    simp only [packPass]
    exact ⟨le_trans hm hm', hI'⟩

lemma placeQty_cons (x : Row) (l : List Row) :
    placeQty (x :: l) = (if placeable x then x.qty else 0) + placeQty l := by
  simp only [placeQty, List.filter_cons]
  by_cases h : placeable x
  · simp [h]
  · simp [h]

lemma placeable_commitRow (st : PassState) (r : Row) :
    placeable (commitRow st r) ↔ placeable r := Iff.rfl

lemma packPass_placeQty : ∀ (rows : List Row) (st : PassState),
    Inv st → (∀ x ∈ rows, PosRow x) →
    placeQty (packPass st rows).2 + (packPass st rows).1.packed = placeQty rows + st.packed
  | [], st, hInv, h => by simp [packPass, placeQty]
  | r :: rs, st, hInv, h => by
    have hI : Inv (processRow st r).1 := (processRow_mono_inv st r hInv (h r (by simp))).2
    have ih := packPass_placeQty rs (processRow st r).1 hI (fun y hy => h y (by simp [hy]))
    simp only [packPass]
    rw [placeQty_cons, placeQty_cons]
    by_cases hs : skipCond st r
    · simp only [processRow_skip st r hs] at ih ⊢
      omega
    · have hpl : placeable r := commit_placeable st r hInv (h r (by simp)) hs
      have hplc : placeable (commitRow st r) := hpl
      rw [processRow_commit st r hs] at ih ⊢
      rw [if_pos hpl, if_pos hplc]
      simp only [commitRow, commitState] at *
      omega

lemma packPass_details : ∀ (rows : List Row) (st : PassState),
    Inv st → (∀ x ∈ rows, PosRow x) →
    ∀ d ∈ (packPass st rows).1.details, d ∈ st.details ∨ d.dimH ≤ palletHeight
  | [], st, hInv, h => by
    simp only [packPass]
    exact fun d hd => Or.inl hd
  | r :: rs, st, hInv, h => by
    intro d hd
    have hI : Inv (processRow st r).1 := (processRow_mono_inv st r hInv (h r (by simp))).2
    simp only [packPass] at hd
    have ih := packPass_details rs (processRow st r).1 hI (fun y hy => h y (by simp [hy])) d hd
    rcases ih with hmem | hb
    · by_cases hs : skipCond st r
      · rw [processRow_skip st r hs] at hmem
        exact Or.inl hmem
      · have hpl : placeable r := commit_placeable st r hInv (h r (by simp)) hs
        rw [processRow_commit st r hs] at hmem
        simp only [commitState, List.mem_append, List.mem_singleton] at hmem
        rcases hmem with hmem | rfl
        · exact Or.inl hmem
        · exact Or.inr hpl.2
    · exact Or.inr hb

lemma packPass_progress : ∀ (rows : List Row) (st : PassState),
    st.heightUsed = 0 → Inv st → (∀ x ∈ rows, PosRow x) →
    (packPass st rows).1.packed ≤ st.packed →
    ∀ x ∈ rows, placeable x → x.qty ≤ 0
  | [], st, h0, hInv, hpos, hle => by simp
  | r :: rs, st, h0, hInv, hpos, hle => by
    have hpr : PosRow r := hpos r (by simp)
    rcases processRow_dichotomy st r hInv hpr with heq | hlt
    · intro x hx hplx
      have hle' : (packPass st rs).1.packed ≤ st.packed := by
        simpa only [packPass, heq] using hle
      rcases List.mem_cons.mp hx with rfl | hx'
      · by_contra hq
        push_neg at hq
        have := processRow_commit_of_placeable st x h0 hpr hplx hq
        rw [heq] at this
        exact absurd this (lt_irrefl _)
      · exact packPass_progress rs st h0 hInv (fun y hy => hpos y (by simp [hy])) hle' x hx' hplx
    · exfalso
      have hI : Inv (processRow st r).1 := (processRow_mono_inv st r hInv hpr).2
      have hm := (packPass_mono_inv rs (processRow st r).1 hI
        (fun y hy => hpos y (by simp [hy]))).1
      simp only [packPass] at hle
      omega

/-! ### Loop-level lemmas (the outer pallet loop) -/

lemma totalQty_nonneg (rows : List Row) (h : ∀ x ∈ rows, 0 ≤ x.qty) : 0 ≤ totalQty rows := by
  refine List.sum_nonneg ?_
  intro q hq
  obtain ⟨x, hx, rfl⟩ := List.mem_map.mp hq
  exact h x hx

lemma placeQty_nonneg (rows : List Row) (h : ∀ x ∈ rows, 0 ≤ x.qty) : 0 ≤ placeQty rows := by
  refine List.sum_nonneg ?_
  intro q hq
  obtain ⟨x, hx, rfl⟩ := List.mem_map.mp hq
  exact h x (List.mem_of_mem_filter hx)

lemma placeQty_le_totalQty : ∀ rows : List Row, (∀ x ∈ rows, 0 ≤ x.qty) →
    placeQty rows ≤ totalQty rows
  | [], _ => le_rfl
  | r :: rs, h => by
    have ih := placeQty_le_totalQty rs (fun y hy => h y (by simp [hy]))
    have hq := h r (by simp)
    rw [placeQty_cons]
    simp only [totalQty, List.map_cons, List.sum_cons]
    simp only [totalQty] at ih
    by_cases hp : placeable r
    · rw [if_pos hp]
      omega
    · rw [if_neg hp]
      omega

lemma placeQty_eq_zero (rows : List Row) (h : ∀ x ∈ rows, placeable x → x.qty = 0) :
    placeQty rows = 0 := by
  refine List.sum_eq_zero ?_
  intro q hq
  obtain ⟨x, hx, rfl⟩ := List.mem_map.mp hq
  have hx' := List.mem_filter.mp hx
  exact h x hx'.1 (by simpa using hx'.2)

lemma packLoop_bounds : ∀ (fuel : ℕ) (pid : ℤ) (rows : List Row),
    ∀ p ∈ packLoop fuel pid rows,
      p.totalHeightUsed ≤ palletHeight ∧ p.totalLengthUsed ≤ palletLength ∧
        p.totalWidthUsed ≤ palletWidth
  | 0, pid, rows => by simp [packLoop]
  | fuel + 1, pid, rows => by
    intro p hp
    simp only [packLoop] at hp
    split at hp
    · split at hp
      · rcases List.mem_cons.mp hp with rfl | hp'
        · refine ⟨?_, ?_, ?_⟩
          · exact packPass_heightUsed_le rows initPass (by norm_num [initPass, palletHeight])
          · exact packPass_maxLen_le rows initPass (by norm_num [initPass, palletLength])
          · exact packPass_maxWid_le rows initPass (by norm_num [initPass, palletWidth])
        · exact packLoop_bounds fuel (pid + 1) _ p hp'
      · simp at hp
    · simp at hp

lemma packLoop_le_totalQty : ∀ (fuel : ℕ) (pid : ℤ) (rows : List Row),
    (∀ x ∈ rows, 0 ≤ x.qty) → sumPacked (packLoop fuel pid rows) ≤ totalQty rows
  | 0, pid, rows, h => by
    simpa [packLoop, sumPacked] using totalQty_nonneg rows h
  | fuel + 1, pid, rows, h => by
    simp only [packLoop]
    split
    · split
      · have hbal := packPass_balance rows initPass
        have hnn : ∀ x ∈ (packPass initPass rows).2, 0 ≤ x.qty := packPass_qty_nonneg rows initPass h
        have ih := packLoop_le_totalQty fuel (pid + 1) (packPass initPass rows).2 hnn
        simp only [sumPacked, List.map_cons, List.sum_cons, mkSummary] at *
        simp only [show initPass.packed = (0:ℤ) from rfl, add_zero] at hbal
        omega
      · simpa [sumPacked] using totalQty_nonneg rows h
    · simpa [sumPacked] using totalQty_nonneg rows h

lemma packLoop_drain : ∀ (fuel : ℕ) (pid : ℤ) (rows : List Row),
    (∀ x ∈ rows, PosRow x) → (∀ x ∈ rows, 0 ≤ x.qty) →
    (placeQty rows).toNat < fuel →
    sumPacked (packLoop fuel pid rows) = placeQty rows
  | 0, pid, rows, hpos, hnn, hf => by omega
  | fuel + 1, pid, rows, hpos, hnn, hf => by
    have hInv : Inv initPass := by constructor <;> norm_num [initPass, palletHeight]
    simp only [packLoop]
    split
    · rename_i htot
      have hmono := (packPass_mono_inv rows initPass hInv hpos).1
      have hpq := packPass_placeQty rows initPass hInv hpos
      simp only [show initPass.packed = (0:ℤ) from rfl, add_zero] at hmono hpq
      split
      · rename_i hpk
        have hpos' := packPass_pos rows initPass hpos
        have hnn' := packPass_qty_nonneg rows initPass hnn
        have hpn' : 0 ≤ placeQty (packPass initPass rows).2 :=
          placeQty_nonneg _ hnn'
        have ih := packLoop_drain fuel (pid + 1) (packPass initPass rows).2 hpos' hnn'
          (by omega)
        simp only [sumPacked, List.map_cons, List.sum_cons, mkSummary] at *
        omega
      · rename_i hpk
        have hzero : ∀ x ∈ rows, placeable x → x.qty = 0 := by
          intro x hx hplx
          have h1 := packPass_progress rows initPass rfl hInv hpos
            (by simp only [show initPass.packed = (0:ℤ) from rfl]; omega) x hx hplx
          have h2 := hnn x hx
          omega
        simp [sumPacked, placeQty_eq_zero rows hzero]
    · rename_i htot
      have h1 : 0 ≤ placeQty rows := placeQty_nonneg rows hnn
      have h2 : placeQty rows ≤ totalQty rows := placeQty_le_totalQty rows hnn
      simp only [sumPacked, List.map_nil, List.sum_nil]
      omega

lemma packLoop_fuel_stable : ∀ (n m : ℕ) (pid : ℤ) (rows : List Row),
    (∀ x ∈ rows, PosRow x) → (∀ x ∈ rows, 0 ≤ x.qty) →
    (totalQty rows).toNat < n → n ≤ m →
    packLoop n pid rows = packLoop m pid rows
  | 0, m, pid, rows, hpos, hnn, hf, hnm => by omega
  | n + 1, 0, pid, rows, hpos, hnn, hf, hnm => by omega
  | n + 1, m + 1, pid, rows, hpos, hnn, hf, hnm => by
    have hInv : Inv initPass := by constructor <;> norm_num [initPass, palletHeight]
    simp only [packLoop]
    split
    · rename_i htot
      split
      · rename_i hpk
        have hbal := packPass_balance rows initPass
        have hpos' := packPass_pos rows initPass hpos
        have hnn' := packPass_qty_nonneg rows initPass hnn
        have htq' : 0 ≤ totalQty (packPass initPass rows).2 := totalQty_nonneg _ hnn'
        have ih := packLoop_fuel_stable n m (pid + 1) (packPass initPass rows).2 hpos' hnn'
          (by simp only [show initPass.packed = (0:ℤ) from rfl, add_zero] at hbal; omega)
          (by omega)
        rw [ih]
      · rfl
    · rfl

/-! ### The volume sort is a permutation -/

lemma insertVolDesc_perm (r : Row) : ∀ l : List Row, (insertVolDesc r l).Perm (r :: l)
  | [] => List.Perm.refl _
  | s :: rest => by
    unfold insertVolDesc
    split
    · exact ((insertVolDesc_perm r rest).cons s).trans (List.Perm.swap r s rest)
    · exact List.Perm.refl _

lemma sortVolDesc_perm : ∀ l : List Row, (sortVolDesc l).Perm l
  | [] => List.Perm.refl _
  | r :: rs => (insertVolDesc_perm r (sortVolDesc rs)).trans ((sortVolDesc_perm rs).cons r)

lemma mem_sortVolDesc {x : Row} {rows : List Row} : x ∈ sortVolDesc rows ↔ x ∈ rows :=
  (sortVolDesc_perm rows).mem_iff

lemma totalQty_sortVolDesc (rows : List Row) : totalQty (sortVolDesc rows) = totalQty rows :=
  ((sortVolDesc_perm rows).map Row.qty).sum_eq

lemma placeQty_sortVolDesc (rows : List Row) : placeQty (sortVolDesc rows) = placeQty rows :=
  (((sortVolDesc_perm rows).filter _).map Row.qty).sum_eq

lemma packLoop_details : ∀ (fuel : ℕ) (pid : ℤ) (rows : List Row),
    (∀ x ∈ rows, PosRow x) →
    ∀ p ∈ packLoop fuel pid rows, ∀ d ∈ p.details, d.dimH ≤ palletHeight
  | 0, pid, rows, hpos => by simp [packLoop]
  | fuel + 1, pid, rows, hpos => by
    have hInv : Inv initPass := by constructor <;> norm_num [initPass, palletHeight]
    intro p hp d hd
    simp only [packLoop] at hp
    split at hp
    · split at hp
      · rcases List.mem_cons.mp hp with rfl | hp'
        · have := packPass_details rows initPass hInv hpos d (by simpa [mkSummary] using hd)
          simpa [initPass] using this
        · exact packLoop_details fuel (pid + 1) _ (packPass_pos rows initPass hpos) p hp' d hd
      · simp at hp
    · simp at hp

lemma placeQty_eq_totalQty (l : List Row) (h : ∀ x ∈ l, placeable x) :
    placeQty l = totalQty l := by
  unfold placeQty totalQty
  congr 2
  rw [List.filter_eq_self]
  intro a ha
  simpa using h a ha

/-! ### Claim theorems -/

/-- C1: for every output pallet produced by `pack_fba_group`, the reported
occupied height satisfies `height_used ≤ 194` (the pallet height constant),
for every input group of rows with positive quantities and dimensions. -/
theorem C1_height_bound (rows : List Row) (h : ∀ r ∈ rows, 0 < r.qty ∧ PosRow r)
    (p : PalletSummary) (hp : p ∈ pack_fba_group rows) :
    p.totalHeightUsed ≤ palletHeight :=
  (packLoop_bounds (packFuel rows) 1 (sortVolDesc rows) p hp).1

/-- C7: for every output pallet produced by `pack_fba_group`, the reported
footprint extents satisfy `length_used ≤ 122` and `width_used ≤ 102`, for
every input group of rows with positive quantities and dimensions. -/
theorem C7_footprint_bound (rows : List Row) (h : ∀ r ∈ rows, 0 < r.qty ∧ PosRow r)
    (p : PalletSummary) (hp : p ∈ pack_fba_group rows) :
    p.totalLengthUsed ≤ palletLength ∧ p.totalWidthUsed ≤ palletWidth :=
  (packLoop_bounds (packFuel rows) 1 (sortVolDesc rows) p hp).2

/-- C2: for every shipment group with positive quantities and dimensions,
the sum of `packed_count` over all pallets returned by `pack_fba_group` is
at most the sum of the initial quantities, and when every carton type in
the group is individually placeable the two sums are equal. -/
theorem C2_conservation (rows : List Row) (h : ∀ r ∈ rows, 0 < r.qty ∧ PosRow r) :
    sumPacked (pack_fba_group rows) ≤ totalQty rows ∧
      ((∀ r ∈ rows, placeable r) →
        sumPacked (pack_fba_group rows) = totalQty rows) := by
  have hnn : ∀ x ∈ sortVolDesc rows, 0 ≤ x.qty :=
    fun x hx => (h x (mem_sortVolDesc.mp hx)).1.le
  have hpos : ∀ x ∈ sortVolDesc rows, PosRow x :=
    fun x hx => (h x (mem_sortVolDesc.mp hx)).2
  constructor
  · have hle := packLoop_le_totalQty (packFuel rows) 1 (sortVolDesc rows) hnn
    rwa [totalQty_sortVolDesc] at hle
  · intro hall
    have hallp : ∀ x ∈ sortVolDesc rows, placeable x :=
      fun x hx => hall x (mem_sortVolDesc.mp hx)
    have hpq : placeQty (sortVolDesc rows) = totalQty rows := by
      rw [placeQty_eq_totalQty _ hallp, totalQty_sortVolDesc]
    have hdrain := packLoop_drain (packFuel rows) 1 (sortVolDesc rows) hpos hnn
      (by unfold packFuel; omega)
    unfold pack_fba_group
    rw [hdrain, hpq]

/-- C5: for every input to `calculate_cartons_per_layer` that is non-numeric
(modelled by `none`) or has a non-positive dimension, the function returns
count 0 with the sentinel orientation `(0, 0)`; the embedding is a total
function, modelling that the Python code catches the conversion error and
never raises. -/
theorem C5_invalid_input (cl cw : Option ℚ)
    (h : cl = none ∨ cw = none ∨ ∃ l w, cl = some l ∧ cw = some w ∧ (l ≤ 0 ∨ w ≤ 0)) :
    calculate_cartons_per_layer cl cw = (0, (0, 0)) := by
  rcases h with rfl | rfl | ⟨l, w, rfl, rfl, hlw⟩
  · cases cw <;> rfl
  · cases cl <;> rfl
  · simp only [calculate_cartons_per_layer]
    rw [if_pos hlw]

/-- C6: the outer pallet loop of `pack_fba_group` terminates on every group
with positive quantities and dimensions: a pass that packs at least one
carton strictly decreases the total remaining quantity, and (second
conjunct) the loop finishes within `totalQty + 1` passes, in the sense that
giving the fuelled loop any larger fuel yields the same output; a pass that
packs nothing ends the loop by definition of `packLoop`. -/
theorem C6_termination (rows : List Row) (h : ∀ r ∈ rows, 0 < r.qty ∧ PosRow r) :
    (0 < (packPass initPass (sortVolDesc rows)).1.packed →
      totalQty (packPass initPass (sortVolDesc rows)).2 < totalQty (sortVolDesc rows)) ∧
    ∀ m : ℕ, packFuel rows ≤ m →
      packLoop m 1 (sortVolDesc rows) = pack_fba_group rows := by
  have hnn : ∀ x ∈ sortVolDesc rows, 0 ≤ x.qty :=
    fun x hx => (h x (mem_sortVolDesc.mp hx)).1.le
  have hpos : ∀ x ∈ sortVolDesc rows, PosRow x :=
    fun x hx => (h x (mem_sortVolDesc.mp hx)).2
  constructor
  · intro hpk
    have hbal := packPass_balance (sortVolDesc rows) initPass
    simp only [show initPass.packed = (0:ℤ) from rfl, add_zero] at hbal
    omega
  · intro m hm
    have hf : (totalQty (sortVolDesc rows)).toNat < packFuel rows := by
      rw [totalQty_sortVolDesc]
      unfold packFuel
      omega
    exact (packLoop_fuel_stable (packFuel rows) m 1 (sortVolDesc rows) hpos hnn hf hm).symm

/-- C8: in a group mixing carton types taller than the pallet with
individually placeable types (all with positive quantities and dimensions),
the over-tall types appear in no pallet detail entry, and the placeable
types are all packed: the total packed count equals the total quantity
carried by the placeable rows. -/
theorem C8_tall_excluded (rows : List Row)
    (h : ∀ r ∈ rows, 0 < r.qty ∧ PosRow r)
    (hpart : ∀ r ∈ rows, placeable r ∨ palletHeight < r.rht)
    (htall : ∃ r ∈ rows, palletHeight < r.rht)
    (hsome : ∃ r ∈ rows, placeable r) :
    (∀ r ∈ rows, palletHeight < r.rht → ∀ p ∈ pack_fba_group rows, ∀ d ∈ p.details,
      ¬(d.dimL = r.rlen ∧ d.dimW = r.rwid ∧ d.dimH = r.rht)) ∧
    sumPacked (pack_fba_group rows) = placeQty rows := by
  have hnn : ∀ x ∈ sortVolDesc rows, 0 ≤ x.qty :=
    fun x hx => (h x (mem_sortVolDesc.mp hx)).1.le
  have hpos : ∀ x ∈ sortVolDesc rows, PosRow x :=
    fun x hx => (h x (mem_sortVolDesc.mp hx)).2
  constructor
  · intro r hr htr p hp d hd
    have hdh := packLoop_details (packFuel rows) 1 (sortVolDesc rows) hpos p hp d hd
    rintro ⟨-, -, h3⟩
    rw [h3] at hdh
    exact absurd htr (not_lt.mpr hdh)
  · have hf : (placeQty (sortVolDesc rows)).toNat < packFuel rows := by
      have h1 := placeQty_le_totalQty (sortVolDesc rows) hnn
      rw [totalQty_sortVolDesc] at h1
      unfold packFuel
      omega
    have hdrain := packLoop_drain (packFuel rows) 1 (sortVolDesc rows) hpos hnn hf
    unfold pack_fba_group
    rw [hdrain, placeQty_sortVolDesc]

/-- C9: `pack_all` is deterministic: two runs on identical input tables
(same rows, same order) produce identical output sequences.  The embedding
is a pure function of the input list, which is the formal content of the
claim: the code has no randomness, parallelism or hidden state, so equal
inputs give equal outputs. -/
theorem C9_deterministic (df1 df2 : List Row) (h : df1 = df2) :
    pack_all df1 = pack_all df2 :=
  congrArg pack_all h

/-- C10: under exact arithmetic and a strictly positive carton height, for
every row reaching the conservative guard (positive per-layer count and
positive cartons-to-pack), the layer count fits the layer budget and
`height_used + height_add ≤ 194`: the guard skip branch never fires. -/
theorem C10_guard_unreachable (hu : ℚ) (r : Row) (h1 : 0 < r.rht)
    (h2 : 0 < (rowCPL r).1) (h3 : 0 < rowCartonsToPack hu r) :
    rowLayersUsed (rowCartonsToPack hu r) (rowCPL r).1 ≤ rowMaxLayers hu r ∧
    ¬ palletHeight < hu + rowHeightAdd hu r :=
  ⟨rowLayersUsed_le hu r h2, not_lt.mpr (rowHeightAdd_le hu r h1 h2)⟩

/-- C4 counterexample: at `L = 200`, `W = 150` (both strictly positive) the
two orientation counts tie (both are zero), yet the selector returns the
sentinel orientation `(0, 0)`, not the first (length-first) orientation
`(200, 150)`: the tie-breaking clause of the claim as stated fails on
zero-count ties. -/
theorem C4_counterexample :
    (⌊palletLength / (200:ℚ)⌋ * ⌊palletWidth / (150:ℚ)⌋ =
      ⌊palletLength / (150:ℚ)⌋ * ⌊palletWidth / (200:ℚ)⌋) ∧
    (calculate_cartons_per_layer (some 200) (some 150)).2 ≠ ((200:ℚ), (150:ℚ)) := by
  with_unfolding_all decide

/-- C4 (amended): for strictly positive `L`, `W` the selector returns the
maximum of the two per-layer orientation counts (hence never lower than
either); a tie with positive count keeps the first (length-first)
orientation; a strictly greater second count selects the width-first
orientation; and when the maximum count is zero the orientation is the
sentinel `(0, 0)`. -/
theorem C4_amended (L W : ℚ) (hL : 0 < L) (hW : 0 < W) :
    (calculate_cartons_per_layer (some L) (some W)).1 =
      max (⌊palletLength / L⌋ * ⌊palletWidth / W⌋) (⌊palletLength / W⌋ * ⌊palletWidth / L⌋) ∧
    (0 < ⌊palletLength / L⌋ * ⌊palletWidth / W⌋ →
      ⌊palletLength / W⌋ * ⌊palletWidth / L⌋ ≤ ⌊palletLength / L⌋ * ⌊palletWidth / W⌋ →
      (calculate_cartons_per_layer (some L) (some W)).2 = (L, W)) ∧
    (⌊palletLength / L⌋ * ⌊palletWidth / W⌋ < ⌊palletLength / W⌋ * ⌊palletWidth / L⌋ →
      (calculate_cartons_per_layer (some L) (some W)).2 = (W, L)) ∧
    (max (⌊palletLength / L⌋ * ⌊palletWidth / W⌋) (⌊palletLength / W⌋ * ⌊palletWidth / L⌋) = 0 →
      (calculate_cartons_per_layer (some L) (some W)).2 = (0, 0)) := by
  have h1 : 0 ≤ ⌊palletLength / L⌋ * ⌊palletWidth / W⌋ :=
    mul_nonneg (floor_div_nonneg (by norm_num [palletLength]) hL)
      (floor_div_nonneg (by norm_num [palletWidth]) hW)
  have h2 : 0 ≤ ⌊palletLength / W⌋ * ⌊palletWidth / L⌋ :=
    mul_nonneg (floor_div_nonneg (by norm_num [palletLength]) hW)
      (floor_div_nonneg (by norm_num [palletWidth]) hL)
  rw [calculate_pos_eq L W hL hW]
  by_cases hlt : ⌊palletLength / L⌋ * ⌊palletWidth / W⌋ < ⌊palletLength / W⌋ * ⌊palletWidth / L⌋
  · rw [if_pos hlt]
    refine ⟨by rw [max_eq_right hlt.le], ?_, fun _ => rfl, ?_⟩
    · intro ha hb
      exact absurd hb (not_le.mpr hlt)
    · intro hm
      exfalso
      rw [max_eq_right hlt.le] at hm
      omega
  · rw [if_neg hlt]
    push_neg at hlt
    by_cases h0 : 0 < ⌊palletLength / L⌋ * ⌊palletWidth / W⌋
    · rw [if_pos h0]
      refine ⟨by rw [max_eq_left hlt], fun _ _ => rfl, ?_, ?_⟩
      · intro hc
        exact absurd hc (not_lt.mpr hlt)
      · intro hm
        exfalso
        rw [max_eq_left hlt] at hm
        omega
    · rw [if_neg h0]
      refine ⟨?_, ?_, ?_, fun _ => rfl⟩
      · have ha : ⌊palletLength / L⌋ * ⌊palletWidth / W⌋ = 0 := by omega
        have hb : ⌊palletLength / W⌋ * ⌊palletWidth / L⌋ = 0 := by omega
        rw [ha, hb]
        simp
      · intro hc
        exact absurd hc h0
      · intro hc
        exact absurd hc (not_lt.mpr hlt)

/-! ### Witnesses: each hypothesised claim theorem applied at a concrete input -/

/-- Witness for C1 at a single-row group (4 cartons of 60 x 50 x 30). -/
theorem C1_height_bound_witness :
    (∀ r ∈ [Row.mk "A" 4 60 50 30], 0 < r.qty ∧ PosRow r) ∧
    (⟨"A", 1, 4, [⟨60, 50, 30, 4⟩], 30, 120, 100⟩ : PalletSummary) ∈
      pack_fba_group [Row.mk "A" 4 60 50 30] ∧
    (⟨"A", 1, 4, [⟨60, 50, 30, 4⟩], 30, 120, 100⟩ : PalletSummary).totalHeightUsed ≤
      palletHeight :=
  ⟨by with_unfolding_all decide, by with_unfolding_all decide,
    C1_height_bound [Row.mk "A" 4 60 50 30] (by with_unfolding_all decide)
      (⟨"A", 1, 4, [⟨60, 50, 30, 4⟩], 30, 120, 100⟩ : PalletSummary)
      (by with_unfolding_all decide)⟩

/-- Witness for C2 at a single-row group that is fully packable. -/
theorem C2_conservation_witness :
    (∀ r ∈ [Row.mk "C" 4 60 50 30], 0 < r.qty ∧ PosRow r) ∧
    (sumPacked (pack_fba_group [Row.mk "C" 4 60 50 30]) ≤ totalQty [Row.mk "C" 4 60 50 30] ∧
      ((∀ r ∈ [Row.mk "C" 4 60 50 30], placeable r) →
        sumPacked (pack_fba_group [Row.mk "C" 4 60 50 30]) =
          totalQty [Row.mk "C" 4 60 50 30])) :=
  ⟨by with_unfolding_all decide,
    C2_conservation [Row.mk "C" 4 60 50 30] (by with_unfolding_all decide)⟩

/-- Witness for the amended C4 at the (50, 40) example of the spec, where
the width-first orientation wins with count 6 and oriented dims (40, 50). -/
theorem C4_amended_witness :
    ((0:ℚ) < 50 ∧ (0:ℚ) < 40) ∧
    calculate_cartons_per_layer (some 50) (some 40) = (6, (40, 50)) ∧
    ((calculate_cartons_per_layer (some 50) (some 40)).1 =
      max (⌊palletLength / (50:ℚ)⌋ * ⌊palletWidth / (40:ℚ)⌋)
        (⌊palletLength / (40:ℚ)⌋ * ⌊palletWidth / (50:ℚ)⌋) ∧
    (0 < ⌊palletLength / (50:ℚ)⌋ * ⌊palletWidth / (40:ℚ)⌋ →
      ⌊palletLength / (40:ℚ)⌋ * ⌊palletWidth / (50:ℚ)⌋ ≤
        ⌊palletLength / (50:ℚ)⌋ * ⌊palletWidth / (40:ℚ)⌋ →
      (calculate_cartons_per_layer (some 50) (some 40)).2 = (50, 40)) ∧
    (⌊palletLength / (50:ℚ)⌋ * ⌊palletWidth / (40:ℚ)⌋ <
        ⌊palletLength / (40:ℚ)⌋ * ⌊palletWidth / (50:ℚ)⌋ →
      (calculate_cartons_per_layer (some 50) (some 40)).2 = (40, 50)) ∧
    (max (⌊palletLength / (50:ℚ)⌋ * ⌊palletWidth / (40:ℚ)⌋)
        (⌊palletLength / (40:ℚ)⌋ * ⌊palletWidth / (50:ℚ)⌋) = 0 →
      (calculate_cartons_per_layer (some 50) (some 40)).2 = (0, 0))) :=
  ⟨⟨by norm_num, by norm_num⟩, by with_unfolding_all decide,
    C4_amended 50 40 (by norm_num) (by norm_num)⟩

/-- Witness for C5 at the non-positive input `L = -1`, `W = 5`. -/
theorem C5_invalid_input_witness :
    ((some (-1:ℚ) = (none : Option ℚ)) ∨ (some (5:ℚ) = (none : Option ℚ)) ∨
      ∃ l w, some (-1:ℚ) = some l ∧ some (5:ℚ) = some w ∧ (l ≤ 0 ∨ w ≤ 0)) ∧
    calculate_cartons_per_layer (some (-1)) (some 5) = (0, (0, 0)) :=
  ⟨Or.inr (Or.inr ⟨-1, 5, rfl, rfl, Or.inl (by norm_num)⟩),
    C5_invalid_input (some (-1)) (some 5)
      (Or.inr (Or.inr ⟨-1, 5, rfl, rfl, Or.inl (by norm_num)⟩))⟩

/-- Witness for C6: with fuel 7 (more than `packFuel = 5`) the loop output
is unchanged on a concrete group, so the loop has already terminated. -/
theorem C6_termination_witness :
    (∀ r ∈ [Row.mk "B" 4 60 50 30], 0 < r.qty ∧ PosRow r) ∧
    packFuel [Row.mk "B" 4 60 50 30] ≤ 7 ∧
    packLoop 7 1 (sortVolDesc [Row.mk "B" 4 60 50 30]) =
      pack_fba_group [Row.mk "B" 4 60 50 30] :=
  ⟨by with_unfolding_all decide, by with_unfolding_all decide,
    (C6_termination [Row.mk "B" 4 60 50 30] (by with_unfolding_all decide)).2 7
      (by with_unfolding_all decide)⟩

/-- Witness for C7 at a single-row group. -/
theorem C7_footprint_bound_witness :
    (∀ r ∈ [Row.mk "D" 4 60 50 30], 0 < r.qty ∧ PosRow r) ∧
    (⟨"D", 1, 4, [⟨60, 50, 30, 4⟩], 30, 120, 100⟩ : PalletSummary) ∈
      pack_fba_group [Row.mk "D" 4 60 50 30] ∧
    ((⟨"D", 1, 4, [⟨60, 50, 30, 4⟩], 30, 120, 100⟩ : PalletSummary).totalLengthUsed ≤
        palletLength ∧
      (⟨"D", 1, 4, [⟨60, 50, 30, 4⟩], 30, 120, 100⟩ : PalletSummary).totalWidthUsed ≤
        palletWidth) :=
  ⟨by with_unfolding_all decide, by with_unfolding_all decide,
    C7_footprint_bound [Row.mk "D" 4 60 50 30] (by with_unfolding_all decide)
      (⟨"D", 1, 4, [⟨60, 50, 30, 4⟩], 30, 120, 100⟩ : PalletSummary)
      (by with_unfolding_all decide)⟩

/-- Witness for C8 at a group with a placeable type (2 cartons of
60 x 50 x 30) and an over-tall type (height 250 > 194). -/
theorem C8_tall_excluded_witness :
    (∀ r ∈ [Row.mk "E" 2 60 50 30, Row.mk "E" 1 50 40 250], 0 < r.qty ∧ PosRow r) ∧
    ((∀ r ∈ [Row.mk "E" 2 60 50 30, Row.mk "E" 1 50 40 250], palletHeight < r.rht →
        ∀ p ∈ pack_fba_group [Row.mk "E" 2 60 50 30, Row.mk "E" 1 50 40 250],
        ∀ d ∈ p.details, ¬(d.dimL = r.rlen ∧ d.dimW = r.rwid ∧ d.dimH = r.rht)) ∧
      sumPacked (pack_fba_group [Row.mk "E" 2 60 50 30, Row.mk "E" 1 50 40 250]) =
        placeQty [Row.mk "E" 2 60 50 30, Row.mk "E" 1 50 40 250]) :=
  ⟨by with_unfolding_all decide,
    C8_tall_excluded [Row.mk "E" 2 60 50 30, Row.mk "E" 1 50 40 250]
      (by with_unfolding_all decide) (by with_unfolding_all decide)
      (by with_unfolding_all decide) (by with_unfolding_all decide)⟩

/-- Witness for C9 at a one-row table. -/
theorem C9_deterministic_witness :
    ([Row.mk "F" 1 10 10 10] = [Row.mk "F" 1 10 10 10]) ∧
    pack_all [Row.mk "F" 1 10 10 10] = pack_all [Row.mk "F" 1 10 10 10] :=
  ⟨rfl, C9_deterministic [Row.mk "F" 1 10 10 10] [Row.mk "F" 1 10 10 10] rfl⟩

/-- Witness for C10 at a fresh pallet and the 60 x 50 x 30 carton. -/
theorem C10_guard_unreachable_witness :
    ((0:ℚ) < (Row.mk "G" 4 60 50 30).rht ∧ 0 < (rowCPL (Row.mk "G" 4 60 50 30)).1 ∧
      0 < rowCartonsToPack 0 (Row.mk "G" 4 60 50 30)) ∧
    (rowLayersUsed (rowCartonsToPack 0 (Row.mk "G" 4 60 50 30))
        (rowCPL (Row.mk "G" 4 60 50 30)).1 ≤ rowMaxLayers 0 (Row.mk "G" 4 60 50 30) ∧
      ¬ palletHeight < 0 + rowHeightAdd 0 (Row.mk "G" 4 60 50 30)) :=
  ⟨by with_unfolding_all decide,
    C10_guard_unreachable 0 (Row.mk "G" 4 60 50 30) (by with_unfolding_all decide)
      (by with_unfolding_all decide) (by with_unfolding_all decide)⟩

end PalletPacker
